import Mathlib

/-
Verification of the feed-collection core of kbm-nieuws-weer-streamlit2
(src/common.py) against its natural-language specification.

The Python functions are shallowly embedded as executable Lean definitions:
strings are Lean strings (Python str is a sequence of code points, matching
List Char), timestamps are Int seconds since the Unix epoch (datetime in the
source is always UTC-aware), and network / DOM effects are passed in as
explicit values (the parsed entries per feed, the outcome of one HTTP
request, the text content of the selected DOM containers).
-/

namespace KBM

/-- Python whitespace class for re sub with backslash-s and for str.strip,
restricted to the ASCII whitespace characters (space, tab, newline, carriage
return, vertical tab, form feed); the Unicode whitespace code points that
Python would additionally match do not occur in any input considered here. -/
def isPySpace (c : Char) : Bool :=
  c = ' ' || c = '\t' || c = '\n' || c = '\r' || c = Char.ofNat 11 || c = Char.ofNat 12

/-- Characters matched by the word regex of find_related_items
(src/common.py line 596): A-Z, a-z, 0-9 and the Latin-1 range U+00C0-U+00FF. -/
def isWordChar (c : Char) : Bool :=
  ('A' ≤ c && c ≤ 'Z') || ('a' ≤ c && c ≤ 'z') || ('0' ≤ c && c ≤ '9') ||
    (Char.ofNat 0xC0 ≤ c && c ≤ Char.ofNat 0xFF)

/-- Python str.lower restricted to ASCII and Latin-1 letters (the only
characters whose lowering the claims exercise); other characters are kept. -/
def pyLowerChar (c : Char) : Char :=
  if 'A' ≤ c && c ≤ 'Z' then Char.ofNat (c.toNat + 32)
  else if Char.ofNat 0xC0 ≤ c && c ≤ Char.ofNat 0xDE && c ≠ Char.ofNat 0xD7 then
    Char.ofNat (c.toNat + 32)
  else c

/-- Drop leading characters satisfying p from the front and the back. -/
def stripChars (l : List Char) : List Char :=
  ((l.dropWhile isPySpace).reverse.dropWhile isPySpace).reverse

/-- Python str.strip() with no argument: remove whitespace at both ends. -/
def pyStrip (s : String) : String := ⟨stripChars s.data⟩

/-- Python str.lower() on a whole string. -/
def pyLower (s : String) : String := ⟨s.data.map pyLowerChar⟩

/-- No whitespace character at the head of the list. -/
def headOk (l : List Char) : Prop := ∀ c, l.head? = some c → isPySpace c = false

/-- No whitespace character at the end of the list. -/
def lastOk (l : List Char) : Prop := ∀ c, l.getLast? = some c → isPySpace c = false

/-- Maximal runs of characters satisfying p; the accumulator carries the
current run reversed. Used for re findall of character-class-plus patterns
and for splitting a string on whitespace runs. -/
def runsAux (p : Char → Bool) : List Char → List Char → List (List Char)
  | [], [] => []
  | [], acc => [acc.reverse]
  | c :: cs, acc =>
    if p c then runsAux p cs (c :: acc)
    else if acc.isEmpty then runsAux p cs []
    else acc.reverse :: runsAux p cs []

/-- Maximal runs of characters satisfying p inside l. -/
def runs (p : Char → Bool) (l : List Char) : List (List Char) :=
  runsAux p l []

/-- Join pieces with a separator list. -/
def joinSep (sep : List Char) : List (List Char) → List Char
  | [] => []
  | [w] => w
  | w :: ws => w ++ sep ++ joinSep sep ws

/-- The helper _clean_text of src/common.py line 478: replace every
whitespace run by one space and strip the ends, which is the same as
splitting into whitespace-free words and joining them with single spaces. -/
def _clean_text (s : String) : String :=
  ⟨joinSep [' '] (runs (fun c => !isPySpace c) s.data)⟩

/-- Does hay start with needle. -/
def startsWithList : List Char → List Char → Bool
  | _, [] => true
  | [], _ :: _ => false
  | a :: as, b :: bs => a = b && startsWithList as bs

/-- Python substring membership: needle occurs contiguously in hay
(the empty needle occurs in everything). -/
def containsList (needle : List Char) : List Char → Bool
  | [] => startsWithList [] needle
  | c :: t => startsWithList (c :: t) needle || containsList needle t

/-- Python operator in on strings: sub occurs as a substring of s. -/
def strContains (s sub : String) : Bool := containsList sub.data s.data

/-- Insert x into a list sorted non-increasingly by key, after every element
whose key is at least key x that is already present; mirrors where a stable
descending sort places a later-arriving element. -/
def insertDesc (key : α → Int) (x : α) : List α → List α
  | [] => [x]
  | y :: ys => if key x < key y then y :: insertDesc key x ys else x :: y :: ys

/-- Stable sort, descending by key: the model of Python list.sort with a key
function and reverse set, which is a stable descending sort. -/
def sortDesc (key : α → Int) : List α → List α
  | [] => []
  | x :: xs => insertDesc key x (sortDesc key xs)

/-- One raw feed entry as delivered by the feed parser, restricted to the
fields that collect_items (src/common.py lines 443-469) reads. published is
the UTC timestamp in seconds obtained from the structured published field,
or none when the field is absent or its conversion raised. The optional
summary, description and content model the corresponding entry keys, where
none stands for a missing key. img is the value that the best-effort helper
_first_image_from_entry would return for this entry; the claims never
inspect images, so that helper is represented by its output. -/
structure RawEntry where
  title : String
  link : String
  published : Option Int
  summary : Option String
  description : Option String
  content : Option String
  img : Option String
deriving DecidableEq

/-- One collected item dictionary as built in src/common.py lines 462-469.
dt is the optional UTC timestamp in seconds. -/
structure Item where
  title : String
  link : String
  dt : Option Int
  rss_summary : String
  img : Option String
  source_label : String
deriving DecidableEq

/-- A default item, used only to state positional properties with getD. -/
def dItem : Item :=
  { title := "", link := "", dt := none, rss_summary := "", img := none, source_label := "" }

/-- Python falsey-or on an optional string: a missing key and the empty
string both fall through to the alternative. -/
def pyOr : Option String → String → String
  | some s, d => if s = "" then d else s
  | none, d => d

/-- The summary resolution of src/common.py lines 456-460: summary or
description (falsey-or), stripped; when that is empty, the stripped value of
the first content element. -/
def rssSummary (e : RawEntry) : String :=
  let s := pyStrip (pyOr e.summary (pyOr e.description ""))
  if s = "" then pyStrip (pyOr e.content "") else s

/-- The per-entry body of the collect_items loop (src/common.py lines
443-469): strip title and link, silently drop the entry when either is
empty, otherwise build the item dictionary. -/
def entryToItem (label : String) (e : RawEntry) : Option Item :=
  if pyStrip e.title = "" || pyStrip e.link = "" then none
  else some { title := pyStrip e.title, link := pyStrip e.link, dt := e.published,
              rss_summary := rssSummary e, img := e.img, source_label := label }

/-- Sort key of src/common.py line 475: the item timestamp, with a missing
timestamp replaced by the Unix epoch datetime(1970,1,1), that is second 0. -/
def itemKey (x : Item) : Int := x.dt.getD 0

/-- The merge-and-filter stage of collect_items (src/common.py lines
426-473), before the final sort. Each feed label is paired with the list of
parsed entries its URL yielded (the network fetch, the FEEDS registry
lookup, and the RTL listing scrape are outside the pure core; a label whose
lookup or fetch yields nothing is a pair with an empty entry list). Per feed
the first max_per_feed entries are converted; when the query is present and
nonempty, items whose lowered title-plus-summary does not contain the
lowered query are removed. -/
def collectRaw (feeds : List (String × List RawEntry)) (maxPerFeed : Nat) : List Item :=
  feeds.flatMap (fun f => (f.2.take maxPerFeed).filterMap (entryToItem f.1))

/-- The query filter applied on top of the merged list. -/
def collectUnsorted (feeds : List (String × List RawEntry)) (query : Option String)
    (maxPerFeed : Nat) : List Item :=
  match query with
  | none => collectRaw feeds maxPerFeed
  | some q =>
    if q = "" then collectRaw feeds maxPerFeed
    else (collectRaw feeds maxPerFeed).filter
      (fun x => strContains (pyLower (x.title ++ " " ++ x.rss_summary)) (pyLower q))

/-- collect_items of src/common.py lines 425-476: merge, filter, and sort
non-increasingly by timestamp (missing timestamps count as the epoch) with
Python list.sort stability. The windowHours argument models a window_hours
keyword argument of a call; the function signature absorbs any such keyword
into its ignored catch-all, so the argument is unused. -/
def collect_items (feeds : List (String × List RawEntry)) (query : Option String)
    (maxPerFeed : Nat) (_windowHours : Option Nat) : List Item :=
  sortDesc itemKey (collectUnsorted feeds query maxPerFeed)

/-- within_hours of src/common.py lines 257-261: false for a missing
timestamp, otherwise whether the timestamp is at least now minus the window.
The clock datetime.now is passed explicitly as now. -/
def within_hours (dt : Option Int) (hours : Int) (now : Int) : Bool :=
  match dt with
  | none => false
  | some d => decide (now - hours * 3600 ≤ d)

/-- Characters that end the network-location part of a URL. -/
def isNetlocEnd (c : Char) : Bool := c = '/' || c = '?' || c = '#'

/-- Characters allowed in a URL scheme. -/
def isSchemeChar (c : Char) : Bool := c.isAlphanum || c = '+' || c = '-' || c = '.'

/-- Drop a leading scheme-colon part when present. -/
def dropScheme (l : List Char) : List Char :=
  let pre := l.takeWhile isSchemeChar
  match l.drop pre.length with
  | ':' :: r => r
  | _ => l

/-- The network-location component of urlparse for the absolute URLs this
application handles: the part after the scheme's double slash, up to the
first slash, question mark or hash. A string with no double slash after its
scheme has an empty network location. -/
def netlocOf (l : List Char) : List Char :=
  match dropScheme l with
  | '/' :: '/' :: r => r.takeWhile (fun c => !isNetlocEnd c)
  | _ => []

/-- Python str.replace of every occurrence of the four characters w w w dot
by nothing, scanning left to right. -/
def removeWWW : List Char → List Char
  | 'w' :: 'w' :: 'w' :: '.' :: rest => removeWWW rest
  | c :: rest => c :: removeWWW rest
  | [] => []

/-- host of src/common.py lines 246-250: the network location of the URL
with every www-dot removed. -/
def host (url : String) : String := ⟨removeWWW (netlocOf url.data)⟩

/-- Tokenizer of find_related_items (src/common.py line 596): maximal runs
of word characters of length at least 4, each lowered. -/
def tokenWords (title : String) : List String :=
  ((runs isWordChar title.data).filter (fun w => 4 ≤ w.length)).map
    (fun w => ⟨w.map pyLowerChar⟩)

/-- Score of one candidate (src/common.py line 603): the number of distinct
key words occurring as substrings of the lowered candidate title. -/
def relScore (keyset : List String) (it : Item) : Nat :=
  keyset.countP (fun w => strContains (pyLower it.title) w)

/-- The output loop of find_related_items (src/common.py lines 607-617):
walk the scored list, skip items with an empty or already-seen link, append
the rest, and stop as soon as the output has reached max_n items (checked
after appending, so max_n equal to 0 still lets one item through). -/
def relPick (maxN : Nat) : List Item → List String → List Item → List Item
  | [], _, out => out
  | it :: rest, seen, out =>
    if it.link == "" || seen.contains it.link then relPick maxN rest seen out
    else
      let out2 := out ++ [it]
      if maxN ≤ out2.length then out2 else relPick maxN rest (it.link :: seen) out2

/-- find_related_items of src/common.py lines 595-617: tokenize the focus
title, take the set of its first ten words, keep candidates with a positive
score, sort stably by score descending, and pick with link deduplication up
to max_n. The score of a candidate is written out twice where the source
binds it once to a local variable; the function is pure, so the value is the
same. -/
def find_related_items (all_items : List Item) (title : String) (maxN : Nat) : List Item :=
  if (tokenWords title).isEmpty then []
  else
    relPick maxN
      ((sortDesc (fun p => (p.1 : Int))
        (all_items.filterMap (fun it =>
          if relScore (((tokenWords title).take 10).dedup) it = 0 then none
          else some (relScore (((tokenWords title).take 10).dedup) it, it)))).map
        (fun p => p.2))
      [] []

/-- Outcome of the one HTTP request of _fetch_feed: a response carrying its
ok flag and body, or a raised exception. -/
inductive Net (β : Type) where
  | resp (ok : Bool) (content : β)
  | exc
deriving DecidableEq

/-- _fetch_feed of src/common.py lines 350-364, for one URL. The cache cell
for the URL is passed in and the updated cell is returned beside the parse
result. parse models feedparser.parse and emptyB the empty byte string, so
parse emptyB is the empty parse result. A fresh cached value (age below the
TTL) is returned as is; otherwise the request outcome decides: a response
parses its body when ok and the empty byte string when not, overwriting the
cache; an exception returns the stale cached value when one exists and the
empty parse result otherwise, leaving the cache untouched. -/
def fetch_feed {β δ : Type} (parse : β → δ) (emptyB : β) (ttl : Int) (now : Int)
    (cached : Option (Int × δ)) (net : Net β) : δ × Option (Int × δ) :=
  match cached with
  | some (t, d) =>
    if now - t < ttl then (d, cached)
    else
      match net with
      | Net.resp ok content =>
        let body := if ok then content else emptyB
        let parsed := parse body
        (parsed, some (now, parsed))
      | Net.exc => (d, cached)
  | none =>
    match net with
    | Net.resp ok content =>
      let body := if ok then content else emptyB
      let parsed := parse body
      (parsed, some (now, parsed))
    | Net.exc => (parse emptyB, none)

/-- Python string slice of the first n characters. -/
def strTake (n : Nat) (s : String) : String := ⟨s.data.take n⟩

/-- The paragraph deduplication of fetch_readable_text (src/common.py lines
511-518): keep a paragraph when no earlier kept paragraph shares its first
140 characters. -/
def dedupe140Aux (seen : List String) : List String → List String
  | [] => []
  | t :: rest =>
    if seen.contains (strTake 140 t) then dedupe140Aux seen rest
    else t :: dedupe140Aux (strTake 140 t :: seen) rest

/-- Deduplicate paragraphs by their first 140 characters. -/
def dedupe140 (l : List String) : List String := dedupe140Aux [] l

/-- The text pipeline of fetch_readable_text (src/common.py lines 504-520),
taking as input the raw text of the paragraph and list-item nodes of each
selected container (the DOM work of BeautifulSoup is represented by its
output, a list of strings per container): from the first three containers,
clean every node text and keep those of length at least 40, deduplicate by
the first 140 characters, join with blank lines and strip. The title
extraction of lines 488-493 is separate and not modelled. -/
def readableParas (containers : List (List String)) : List String :=
  ((containers.take 3).map
    (fun c => (c.map _clean_text).filter (fun t => 40 ≤ t.length))).flatten

/-- Join the deduplicated paragraphs with blank lines and strip, finishing
the text pipeline. -/
def fetch_readable_text_core (containers : List (List String)) : String :=
  pyStrip ⟨joinSep ['\n', '\n'] ((dedupe140 (readableParas containers)).map (fun s => s.data))⟩

/-- Rotate a 32-bit word left by n bits. -/
def rotl (n x : Nat) : Nat := ((x <<< n) ||| (x >>> (32 - n))) % 4294967296

/-- Big-endian byte expansion of x over n bytes. -/
def beBytes (n x : Nat) : List Nat :=
  (List.range n).map (fun i => (x >>> (8 * (n - 1 - i))) % 256)

/-- SHA-1 message padding: a one bit, zero bytes up to 56 modulo 64, then
the bit length over eight big-endian bytes. -/
def padMessage (m : List Nat) : List Nat :=
  m ++ 128 :: List.replicate ((64 + 55 - m.length % 64) % 64) 0 ++ beBytes 8 (8 * m.length)

/-- Group bytes into big-endian 32-bit words. -/
def toWordsBE : List Nat → List Nat
  | a :: b :: c :: d :: rest => (((a * 256 + b) * 256 + c) * 256 + d) :: toWordsBE rest
  | _ => []

/-- Extend the sixteen message words to eighty; the accumulator holds the
words generated so far, most recent first. -/
def extendW : Nat → List Nat → List Nat
  | 0, acc => acc.reverse
  | k + 1, acc =>
    extendW k (rotl 1 ((acc.getD 2 0) ^^^ (acc.getD 7 0) ^^^ (acc.getD 13 0) ^^^ (acc.getD 15 0)) :: acc)

/-- One SHA-1 round at index i with message word w. -/
def sha1Round (i w : Nat) : Nat × Nat × Nat × Nat × Nat → Nat × Nat × Nat × Nat × Nat
  | (a, b, c, d, e) =>
    let fk : Nat × Nat :=
      if i < 20 then ((b &&& c) ||| ((b ^^^ 4294967295) &&& d), 1518500249)
      else if i < 40 then (b ^^^ c ^^^ d, 1859775393)
      else if i < 60 then ((b &&& c) ||| (b &&& d) ||| (c &&& d), 2400959708)
      else (b ^^^ c ^^^ d, 3395469782)
    ((rotl 5 a + fk.1 + e + fk.2 + w) % 4294967296, a, rotl 30 b, c, d)

/-- Run the eighty rounds over the word list, starting at round index i. -/
def sha1Rounds : Nat → List Nat → Nat × Nat × Nat × Nat × Nat → Nat × Nat × Nat × Nat × Nat
  | _, [], s => s
  | i, w :: ws, s => sha1Rounds (i + 1) ws (sha1Round i w s)

/-- Compress one sixteen-word chunk into the running hash state. -/
def sha1Chunk (h : Nat × Nat × Nat × Nat × Nat) (chunk : List Nat) : Nat × Nat × Nat × Nat × Nat :=
  let w80 := extendW 64 chunk.reverse
  let s := sha1Rounds 0 w80 (h.1, h.2.1, h.2.2.1, h.2.2.2.1, h.2.2.2.2)
  ((h.1 + s.1) % 4294967296, (h.2.1 + s.2.1) % 4294967296, (h.2.2.1 + s.2.2.1) % 4294967296,
    (h.2.2.2.1 + s.2.2.2.1) % 4294967296, (h.2.2.2.2 + s.2.2.2.2) % 4294967296)

/-- Fold the compression over the padded message's words, sixteen words (one
64-byte chunk) at a time. -/
def sha1Chunks (h : Nat × Nat × Nat × Nat × Nat) : List Nat → Nat × Nat × Nat × Nat × Nat
  | w0 :: w1 :: w2 :: w3 :: w4 :: w5 :: w6 :: w7 ::
    w8 :: w9 :: w10 :: w11 :: w12 :: w13 :: w14 :: w15 :: rest =>
    sha1Chunks (sha1Chunk h [w0, w1, w2, w3, w4, w5, w6, w7, w8, w9, w10, w11, w12, w13, w14, w15]) rest
  | _ => h

/-- The SHA-1 state after hashing a byte list. -/
def sha1Nat (m : List Nat) : Nat × Nat × Nat × Nat × Nat :=
  sha1Chunks (1732584193, 4023233417, 2562383102, 271733878, 3285377520) (toWordsBE (padMessage m))

/-- The sixteen lowercase hexadecimal digit characters. -/
def hexChars : List Char := "0123456789abcdef".data

/-- The hexadecimal digit character of d modulo 16. -/
def hexDigit (d : Nat) : Char := hexChars.getD (d % 16) '0'

/-- Eight-digit lowercase hexadecimal rendering of a 32-bit word. -/
def hexWord8 (x : Nat) : List Char :=
  (List.range 8).map (fun i => hexDigit ((x >>> (4 * (7 - i))) % 16))

/-- The forty-character hexadecimal SHA-1 digest of a byte list, as
hashlib sha1 hexdigest produces it. -/
def sha1HexChars (m : List Nat) : List Char :=
  let h := sha1Nat m
  hexWord8 h.1 ++ hexWord8 h.2.1 ++ hexWord8 h.2.2.1 ++ hexWord8 h.2.2.2.1 ++ hexWord8 h.2.2.2.2

/-- UTF-8 encoding of one code point. -/
def utf8Bytes (c : Char) : List Nat :=
  let n := c.toNat
  if n < 0x80 then [n]
  else if n < 0x800 then [0xC0 ||| (n >>> 6), 0x80 ||| (n &&& 0x3F)]
  else if n < 0x10000 then
    [0xE0 ||| (n >>> 12), 0x80 ||| ((n >>> 6) &&& 0x3F), 0x80 ||| (n &&& 0x3F)]
  else
    [0xF0 ||| (n >>> 18), 0x80 ||| ((n >>> 12) &&& 0x3F), 0x80 ||| ((n >>> 6) &&& 0x3F),
      0x80 ||| (n &&& 0x3F)]

/-- UTF-8 bytes of a string; Python str.encode("utf-8", "ignore") never
drops anything for the strings representable here (Lean strings carry no
lone surrogates). -/
def strBytes (s : String) : List Nat := s.data.flatMap utf8Bytes

/-- item_id of src/common.py lines 263-265: the first sixteen characters of
the hexadecimal SHA-1 digest of the UTF-8 encoding of link plus title, each
field defaulting to the empty string when missing. -/
def item_id (link title : String) : String :=
  strTake 16 ⟨sha1HexChars (strBytes (link ++ title))⟩

/-- A plain entry used to exhibit the duplicate-identity behaviour of
collect_items. -/
def dupEntry : RawEntry :=
  { title := "Storm raakt kustregio", link := "https://x.nl/storm", published := some 100,
    summary := none, description := none, content := none, img := none }

/-- The item dupEntry turns into under feed label A. -/
def dupItemA : Item :=
  { title := "Storm raakt kustregio", link := "https://x.nl/storm", dt := some 100,
    rss_summary := "", img := none, source_label := "A" }

/-- The item dupEntry turns into under feed label B. -/
def dupItemB : Item :=
  { title := "Storm raakt kustregio", link := "https://x.nl/storm", dt := some 100,
    rss_summary := "", img := none, source_label := "B" }

/-- An entry whose link carries tracking query parameters. -/
def utmEntry : RawEntry :=
  { title := "Artikel", link := "https://x.nl/a?utm_source=rss&utm_medium=feed",
    published := none, summary := none, description := none, content := none, img := none }

/-- The item utmEntry turns into under feed label A. -/
def utmItem : Item :=
  { title := "Artikel", link := "https://x.nl/a?utm_source=rss&utm_medium=feed", dt := none,
    rss_summary := "", img := none, source_label := "A" }

/-- First of three same-host candidates for the related-items check. -/
def relItem1 : Item :=
  { title := "Storm raakt kustregio hard", link := "https://www.x.nl/1", dt := none,
    rss_summary := "", img := none, source_label := "a" }

/-- Second of three same-host candidates for the related-items check. -/
def relItem2 : Item :=
  { title := "Storm treft kustregio zwaar", link := "https://www.x.nl/2", dt := none,
    rss_summary := "", img := none, source_label := "b" }

/-- Third of three same-host candidates for the related-items check. -/
def relItem3 : Item :=
  { title := "Kustregio likt wonden na storm", link := "https://www.x.nl/3", dt := none,
    rss_summary := "", img := none, source_label := "c" }

/-- An entry dated before the Unix epoch. -/
def preEpochEntry : RawEntry :=
  { title := "Oud bericht", link := "https://x.nl/oud", published := some (-100),
    summary := none, description := none, content := none, img := none }

/-- An entry with no structured published time. -/
def undatedEntry : RawEntry :=
  { title := "Zonder datum", link := "https://x.nl/geen", published := none,
    summary := none, description := none, content := none, img := none }

/-- An undated entry used for the window-filter check. -/
def windowEntry : RawEntry :=
  { title := "Tijdloos bericht", link := "https://x.nl/tijdloos", published := none,
    summary := none, description := none, content := none, img := none }

/-- The item windowEntry turns into under feed label W. -/
def windowItem : Item :=
  { title := "Tijdloos bericht", link := "https://x.nl/tijdloos", dt := none,
    rss_summary := "", img := none, source_label := "W" }

/-- A consent-gate notice as it would appear in a paragraph node of a gate
page. -/
def gateNotice : String :=
  "Deze site werkt alleen met JavaScript ingeschakeld in de browser."

/-- A readable paragraph much shorter than several hundred characters. -/
def shortParagraph : String :=
  "Dit korte artikel telt maar net iets meer dan veertig tekens."

/-- The claim that every item lacking a timestamp is positioned after every
item having one, stated over positions so that its failure can be exhibited
at a concrete output list. -/
def undatedAllAfterDated (l : List Item) : Prop :=
  ∀ i, i < l.length → ∀ j, j < l.length →
    (l.getD i dItem).dt = none → (l.getD j dItem).dt ≠ none → j < i

instance (l : List Item) : Decidable (undatedAllAfterDated l) := by
  unfold undatedAllAfterDated
  infer_instance

theorem countP_insertDesc (key : α → Int) (p : α → Bool) (x : α) (l : List α) :
    (insertDesc key x l).countP p = l.countP p + (if p x then 1 else 0) := by
  induction l with
  | nil => simp [insertDesc, List.countP_cons]
  | cons y ys ih =>
    by_cases h : key x < key y
    · simp [insertDesc, h, List.countP_cons, ih]
      omega
    · simp [insertDesc, h, List.countP_cons]

theorem countP_sortDesc (key : α → Int) (p : α → Bool) (l : List α) :
    (sortDesc key l).countP p = l.countP p := by
  induction l with
  | nil => rfl
  | cons x xs ih => simp [sortDesc, countP_insertDesc, ih, List.countP_cons]

theorem mem_insertDesc (key : α → Int) (x a : α) (l : List α) :
    a ∈ insertDesc key x l ↔ a = x ∨ a ∈ l := by
  induction l with
  | nil => simp [insertDesc]
  | cons y ys ih =>
    by_cases h : key x < key y
    · simp [insertDesc, h, ih]
      tauto
    · simp [insertDesc, h]

theorem mem_sortDesc (key : α → Int) (a : α) (l : List α) :
    a ∈ sortDesc key l ↔ a ∈ l := by
  induction l with
  | nil => simp [sortDesc]
  | cons x xs ih => simp [sortDesc, mem_insertDesc, ih]

theorem pairwise_insertDesc (key : α → Int) (x : α) (l : List α)
    (h : l.Pairwise (fun a b => key b ≤ key a)) :
    (insertDesc key x l).Pairwise (fun a b => key b ≤ key a) := by
  induction l with
  | nil => simp [insertDesc]
  | cons y ys ih =>
    rcases List.pairwise_cons.mp h with ⟨hy, hys⟩
    by_cases hxy : key x < key y
    · rw [insertDesc, if_pos hxy]
      refine List.pairwise_cons.mpr ⟨?_, ih hys⟩
      intro z hz
      rcases (mem_insertDesc key x z ys).mp hz with rfl | hzys
      · exact le_of_lt hxy
      · exact hy z hzys
    · rw [insertDesc, if_neg hxy]
      refine List.pairwise_cons.mpr ⟨?_, h⟩
      intro z hz
      rcases List.mem_cons.mp hz with rfl | hzys
      · exact le_of_not_lt hxy
      · exact le_trans (hy z hzys) (le_of_not_lt hxy)

theorem pairwise_sortDesc (key : α → Int) (l : List α) :
    (sortDesc key l).Pairwise (fun a b => key b ≤ key a) := by
  induction l with
  | nil => simp [sortDesc]
  | cons x xs ih => exact pairwise_insertDesc key x _ ih

theorem filter_insertDesc_pos (key : α → Int) (p : α → Bool) (x : α) (l : List α)
    (hx : p x = true) (hk : ∀ y, key x < key y → p y = false) :
    (insertDesc key x l).filter p = x :: l.filter p := by
  induction l with
  | nil => simp [insertDesc, hx]
  | cons y ys ih =>
    by_cases h : key x < key y
    · rw [insertDesc, if_pos h]
      rw [List.filter_cons, List.filter_cons, hk y h]
      simpa [hk y h] using ih
    · rw [insertDesc, if_neg h, List.filter_cons, hx]
      simp

theorem filter_insertDesc_neg (key : α → Int) (p : α → Bool) (x : α) (l : List α)
    (hx : p x = false) :
    (insertDesc key x l).filter p = l.filter p := by
  induction l with
  | nil => simp [insertDesc, hx]
  | cons y ys ih =>
    by_cases h : key x < key y
    · rw [insertDesc, if_pos h, List.filter_cons, List.filter_cons]
      rw [ih]
    · rw [insertDesc, if_neg h, List.filter_cons, hx, List.filter_cons]
      simp

/-- Stability of the descending sort: the elements having any fixed key value
appear in the sorted output exactly in their original order. -/
theorem filter_sortDesc (key : α → Int) (k : Int) (l : List α) :
    (sortDesc key l).filter (fun a => key a == k) = l.filter (fun a => key a == k) := by
  induction l with
  | nil => rfl
  | cons x xs ih =>
    by_cases hx : key x = k
    · rw [sortDesc, filter_insertDesc_pos key _ x _ (by simp [hx])
        (fun y hy => by simp; omega)]
      rw [ih, List.filter_cons]
      simp [hx]
    · rw [sortDesc, filter_insertDesc_neg key _ x _ (by simp [hx])]
      rw [ih, List.filter_cons]
      simp [hx]

theorem sha1HexChars_length (m : List Nat) : (sha1HexChars m).length = 40 := by
  unfold sha1HexChars hexWord8
  simp

theorem hexDigit_mem (d : Nat) : hexDigit d ∈ hexChars := by
  unfold hexDigit
  have h : d % 16 < 16 := Nat.mod_lt _ (by norm_num)
  set k := d % 16 with hk
  interval_cases k <;> decide

theorem sha1HexChars_mem (m : List Nat) : ∀ c ∈ sha1HexChars m, c ∈ hexChars := by
  unfold sha1HexChars hexWord8
  intro c hc
  simp only [List.mem_append] at hc
  have hd : ∃ d, c = hexDigit d := by
    rcases hc with (((h | h) | h) | h) | h <;>
    · simp only [List.mem_map, List.mem_range] at h
      obtain ⟨i, _, hi⟩ := h
      exact ⟨_, hi.symm⟩
  obtain ⟨d, rfl⟩ := hd
  exact hexDigit_mem d

theorem entryToItem_link (label : String) (e : RawEntry) (it : Item)
    (h : entryToItem label e = some it) : it.link = pyStrip e.link := by
  unfold entryToItem at h
  by_cases hc : pyStrip e.title = "" || pyStrip e.link = ""
  · rw [if_pos hc] at h
    exact absurd h (by simp)
  · rw [if_neg hc] at h
    obtain rfl := Option.some.inj h
    rfl

/-- C1 amended: collect_items performs no deduplication — every valid entry
occurrence contributes its own item, so a pair of entries with identical
(link, title) appearing in two different feeds of the same call yields at
least two items with that identity in the merged result, rather than
exactly one. -/
theorem collect_keeps_duplicate_identity
    (fs1 fs2 fs3 : List (String × List RawEntry)) (la lb : String)
    (ea eb : List RawEntry) (e1 e2 : RawEntry) (it1 it2 : Item) (m : Nat) (w : Option Nat)
    (h1 : e1 ∈ ea.take m) (h2 : e2 ∈ eb.take m)
    (g1 : entryToItem la e1 = some it1) (g2 : entryToItem lb e2 = some it2)
    (hl : it2.link = it1.link) (ht : it2.title = it1.title) :
    2 ≤ (collect_items (fs1 ++ (la, ea) :: (fs2 ++ (lb, eb) :: fs3)) none m w).countP
        (fun x => x.link == it1.link && x.title == it1.title) := by
  unfold collect_items
  rw [countP_sortDesc]
  show 2 ≤ (collectRaw (fs1 ++ (la, ea) :: (fs2 ++ (lb, eb) :: fs3)) m).countP _
  unfold collectRaw
  rw [List.flatMap_append, List.flatMap_cons, List.flatMap_append, List.flatMap_cons]
  rw [List.countP_append, List.countP_append, List.countP_append, List.countP_append]
  have c1 : 0 < (((la, ea).2.take m).filterMap (entryToItem (la, ea).1)).countP
      (fun x => x.link == it1.link && x.title == it1.title) :=
    List.countP_pos_iff.mpr ⟨it1, List.mem_filterMap.mpr ⟨e1, h1, g1⟩, by simp⟩
  have c2 : 0 < (((lb, eb).2.take m).filterMap (entryToItem (lb, eb).1)).countP
      (fun x => x.link == it1.link && x.title == it1.title) :=
    List.countP_pos_iff.mpr ⟨it2, List.mem_filterMap.mpr ⟨e2, h2, g2⟩, by simp [hl, ht]⟩
  omega

theorem collect_keeps_duplicate_identity_witness :
    2 ≤ (collect_items [("A", [dupEntry]), ("B", [dupEntry])] none 25 none).countP
        (fun x => x.link == dupItemA.link && x.title == dupItemA.title) :=
  collect_keeps_duplicate_identity [] [] [] "A" "B" [dupEntry] [dupEntry] dupEntry dupEntry
    dupItemA dupItemB 25 none (by decide) (by decide) (by decide) (by decide) rfl rfl

/-- C1 counterexample: the same entry served by two feeds of one call gives
two output items of the same identity, so the merged result does not contain
exactly one item with that identity. -/
theorem collect_keeps_duplicate_identity_cex :
    ¬ ((collect_items [("A", [dupEntry]), ("B", [dupEntry])] none 25 none).countP
        (fun x => item_id x.link x.title == item_id dupItemA.link dupItemA.title) = 1) := by
  have h : collect_items [("A", [dupEntry]), ("B", [dupEntry])] none 25 none
      = [dupItemA, dupItemB] := by decide
  rw [h]
  simp [List.countP_cons, dupItemA, dupItemB]

/-- C2 amended: every link in the output of collect_items is the entry link
copied verbatim apart from surrounding-whitespace stripping; no tracking
parameters are removed anywhere in the pipeline. -/
theorem collect_link_verbatim (feeds : List (String × List RawEntry))
    (q : Option String) (m : Nat) (w : Option Nat) :
    ∀ x ∈ collect_items feeds q m w, ∃ f ∈ feeds, ∃ e ∈ f.2, x.link = pyStrip e.link := by
  intro x hx
  rw [collect_items, mem_sortDesc] at hx
  have hraw : x ∈ collectRaw feeds m := by
    cases q with
    | none => exact hx
    | some qs =>
      have hx2 : x ∈ (if qs = "" then collectRaw feeds m
          else (collectRaw feeds m).filter
            (fun y => strContains (pyLower (y.title ++ " " ++ y.rss_summary)) (pyLower qs))) := hx
      by_cases hq : qs = ""
      · rw [if_pos hq] at hx2
        exact hx2
      · rw [if_neg hq] at hx2
        exact (List.mem_filter.mp hx2).1
  obtain ⟨f, hf, hmem⟩ := List.mem_flatMap.mp hraw
  obtain ⟨e, he, heq⟩ := List.mem_filterMap.mp hmem
  exact ⟨f, hf, e, List.take_subset m _ he, entryToItem_link f.1 e x heq⟩

theorem collect_link_verbatim_witness :
    ∃ f ∈ [("A", [utmEntry])], ∃ e ∈ f.2, utmItem.link = pyStrip e.link :=
  collect_link_verbatim [("A", [utmEntry])] none 25 none utmItem (by decide)

/-- C2 counterexample: an entry link carrying utm tracking parameters
reaches the output unchanged, so collected links are not free of tracking
parameters. -/
theorem collect_link_verbatim_cex :
    ¬ (∀ x ∈ collect_items [("A", [utmEntry])] none 25 none,
        strContains x.link "utm_" = false) := by
  decide

theorem relPick_spec (maxN : Nat) (l : List Item) :
    ∀ (seen : List String) (out : List Item),
      (∀ x ∈ out, x.link ≠ "" ∧ seen.contains x.link = true) →
      (out.map Item.link).Nodup →
      (out = [] ∨ out.length < maxN) →
      ((relPick maxN l seen out).map Item.link).Nodup
      ∧ (∀ x ∈ relPick maxN l seen out, x.link ≠ "")
      ∧ (relPick maxN l seen out).length ≤ max 1 maxN := by
  induction l with
  | nil =>
    intro seen out hinv hnd hlen
    refine ⟨hnd, fun x hx => (hinv x hx).1, ?_⟩
    rcases hlen with rfl | hlt
    · simp [relPick]
    · rw [relPick]
      omega
  | cons it rest ih =>
    intro seen out hinv hnd hlen
    rw [relPick]
    by_cases hskip : (it.link == "" || seen.contains it.link) = true
    · rw [if_pos hskip]
      exact ih seen out hinv hnd hlen
    · rw [if_neg hskip]
      simp only [Bool.or_eq_true, beq_iff_eq, not_or, Bool.not_eq_true] at hskip
      obtain ⟨hne, hnotseen⟩ := hskip
      have hnotin : it.link ∉ out.map Item.link := by
        intro hmem
        obtain ⟨x, hxout, hxeq⟩ := List.mem_map.mp hmem
        have h2 := (hinv x hxout).2
        rw [hxeq] at h2
        rw [h2] at hnotseen
        simp at hnotseen
      have hnd2 : ((out ++ [it]).map Item.link).Nodup := by
        rw [List.map_append]
        rw [List.nodup_append]
        refine ⟨hnd, by simp, ?_⟩
        intro a ha hb
        simp only [List.map_cons, List.map_nil, List.mem_singleton] at hb
        subst hb
        exact hnotin ha
      have hinv2 : ∀ x ∈ out ++ [it], x.link ≠ "" ∧ (it.link :: seen).contains x.link = true := by
        intro x hx
        rcases List.mem_append.mp hx with hxo | hxi
        · refine ⟨(hinv x hxo).1, ?_⟩
          rw [List.contains_cons, (hinv x hxo).2, Bool.or_true]
        · simp only [List.mem_singleton] at hxi
          subst hxi
          refine ⟨hne, ?_⟩
          rw [List.contains_cons]
          simp
      by_cases hstop : maxN ≤ (out ++ [it]).length
      · rw [if_pos hstop]
        refine ⟨hnd2, fun x hx => (hinv2 x hx).1, ?_⟩
        rcases hlen with rfl | hlt
        · simp
        · simp only [List.length_append, List.length_singleton]
          omega
      · rw [if_neg hstop]
        refine ih (it.link :: seen) (out ++ [it]) hinv2 hnd2 (Or.inr ?_)
        simp only [List.length_append, List.length_singleton] at hstop ⊢
        omega

/-- C3 amended: find_related_items returns at most max(1, k) items (a result
count k of zero still lets one matching item through because the cap is
checked only after an append), whose links are nonempty and pairwise
distinct; it applies no per-source_host cap, so one host may supply every
result, and it has no exclude-link parameter, so no link-based exclusion is
performed. -/
theorem find_related_diversity (all_items : List Item) (title : String) (maxN : Nat) :
    ((find_related_items all_items title maxN).map Item.link).Nodup
    ∧ (∀ x ∈ find_related_items all_items title maxN, x.link ≠ "")
    ∧ (find_related_items all_items title maxN).length ≤ max 1 maxN := by
  unfold find_related_items
  by_cases hw : (tokenWords title).isEmpty
  · simp [hw]
  · rw [if_neg hw]
    exact relPick_spec maxN _ [] [] (by simp) (by simp) (Or.inl rfl)

theorem find_related_diversity_witness :
    ((find_related_items [relItem1, relItem2, relItem3] "Storm raakt kustregio" 3).map
      Item.link).Nodup
    ∧ (∀ x ∈ find_related_items [relItem1, relItem2, relItem3] "Storm raakt kustregio" 3,
        x.link ≠ "")
    ∧ (find_related_items [relItem1, relItem2, relItem3] "Storm raakt kustregio" 3).length
        ≤ max 1 3 :=
  find_related_diversity [relItem1, relItem2, relItem3] "Storm raakt kustregio" 3

/-- C3 counterexample: three candidates from the same source host all match
the focus title and all three are returned, so the function does not keep at
most two items sharing one source_host. -/
theorem find_related_diversity_cex :
    ¬ ((find_related_items [relItem1, relItem2, relItem3] "Storm raakt kustregio" 3).countP
        (fun x => host x.link == "x.nl") ≤ 2) := by
  decide

/-- C5 amended: collect output is sorted non-increasingly by the sort key,
which is published_at with absence replaced by the Unix epoch. Consequently
every item lacking published_at appears after every item whose published_at
is later than the epoch (an item dated at or before the epoch may precede
undated items, which the claim as stated forbids), and items with equal sort
keys keep their original fetch order. -/
theorem collect_sorted_by_key (feeds : List (String × List RawEntry)) (q : Option String)
    (m : Nat) (w : Option Nat) :
    (collect_items feeds q m w).Pairwise (fun a b => itemKey b ≤ itemKey a)
    ∧ (∀ i j, i < (collect_items feeds q m w).length →
        j < (collect_items feeds q m w).length →
        ((collect_items feeds q m w).getD i dItem).dt = none →
        0 < itemKey ((collect_items feeds q m w).getD j dItem) → j < i)
    ∧ (∀ k : Int, (collect_items feeds q m w).filter (fun x => itemKey x == k)
        = (collectUnsorted feeds q m).filter (fun x => itemKey x == k)) := by
  refine ⟨pairwise_sortDesc itemKey _, ?_, fun k => filter_sortDesc itemKey k _⟩
  intro i j hi hj hnone hpos
  by_contra hji
  push_neg at hji
  rw [List.getD_eq_getElem _ dItem hi] at hnone
  rw [List.getD_eq_getElem _ dItem hj] at hpos
  have hkey_i : itemKey (collect_items feeds q m w)[i] = 0 := by
    unfold itemKey
    rw [hnone]
    rfl
  rcases Nat.lt_or_ge i j with hij | hij
  · have hle := List.pairwise_iff_getElem.mp (pairwise_sortDesc itemKey _) i j hi hj hij
    unfold collect_items at hpos hkey_i
    omega
  · have : i = j := by omega
    subst this
    omega

theorem collect_sorted_by_key_witness :
    (collect_items [("A", [preEpochEntry, undatedEntry])] none 25 none).Pairwise
      (fun a b => itemKey b ≤ itemKey a)
    ∧ (collect_items [("A", [preEpochEntry, undatedEntry])] none 25 none).filter
        (fun x => itemKey x == (-100 : Int))
      = (collectUnsorted [("A", [preEpochEntry, undatedEntry])] none 25).filter
        (fun x => itemKey x == (-100 : Int)) :=
  ⟨(collect_sorted_by_key [("A", [preEpochEntry, undatedEntry])] none 25 none).1,
    (collect_sorted_by_key [("A", [preEpochEntry, undatedEntry])] none 25 none).2.2 (-100)⟩

/-- C5 counterexample: an item dated before the Unix epoch sorts below the
epoch sentinel used for undated items, so an undated item precedes a dated
one in the output, refuting that every item lacking published_at appears
after every item that has one. -/
theorem collect_sorted_by_key_cex :
    ¬ undatedAllAfterDated (collect_items [("A", [preEpochEntry, undatedEntry])] none 25 none) := by
  decide

theorem runsAux_sound (p : Char → Bool) :
    ∀ (l acc : List Char), (∀ c ∈ acc, p c = true) →
      ∀ w ∈ runsAux p l acc, w ≠ [] ∧ ∀ c ∈ w, p c = true := by
  intro l
  induction l with
  | nil =>
    intro acc hacc w hw
    cases acc with
    | nil => simp [runsAux] at hw
    | cons a as =>
      simp only [runsAux, List.mem_singleton] at hw
      subst hw
      refine ⟨by simp, fun c hc => hacc c (List.mem_reverse.mp hc)⟩
  | cons c cs ih =>
    intro acc hacc w hw
    simp only [runsAux] at hw
    by_cases hpc : p c = true
    · rw [if_pos hpc] at hw
      refine ih (c :: acc) ?_ w hw
      intro d hd
      rcases List.mem_cons.mp hd with rfl | hd2
      · exact hpc
      · exact hacc d hd2
    · rw [if_neg hpc] at hw
      by_cases hae : acc.isEmpty
      · rw [if_pos hae] at hw
        exact ih [] (by simp) w hw
      · rw [if_neg hae] at hw
        rcases List.mem_cons.mp hw with rfl | hw2
        · refine ⟨?_, fun d hd => hacc d (List.mem_reverse.mp hd)⟩
          simp only [ne_eq, List.reverse_eq_nil_iff]
          intro hnil
          rw [hnil] at hae
          exact hae rfl
        · exact ih [] (by simp) w hw2

theorem runs_sound (p : Char → Bool) (l : List Char) :
    ∀ w ∈ runs p l, w ≠ [] ∧ ∀ c ∈ w, p c = true :=
  runsAux_sound p l [] (by simp)

theorem joinSep_ne_nil (sep : List Char) :
    ∀ ws, ws ≠ [] → (∀ w ∈ ws, w ≠ []) → joinSep sep ws ≠ [] := by
  intro ws
  cases ws with
  | nil => intro h; exact absurd rfl h
  | cons w ws2 =>
    intro _ h2
    cases ws2 with
    | nil => exact h2 w (by simp)
    | cons w2 ws3 =>
      show w ++ sep ++ joinSep sep (w2 :: ws3) ≠ []
      intro hcontra
      exact h2 w (by simp) (List.append_eq_nil.mp (List.append_eq_nil.mp hcontra).1).1

theorem joinSep_headOk (sep : List Char) :
    ∀ ws, (∀ w ∈ ws, w ≠ [] ∧ headOk w) → headOk (joinSep sep ws) := by
  intro ws
  cases ws with
  | nil =>
    intro _ c hc
    simp [joinSep] at hc
  | cons w ws2 =>
    intro h
    cases ws2 with
    | nil => exact (h w (by simp)).2
    | cons w2 ws3 =>
      intro c hc
      obtain ⟨d, t, rfl⟩ := List.exists_cons_of_ne_nil (h w (by simp)).1
      have hd : (joinSep sep ((d :: t) :: w2 :: ws3)).head? = some d := rfl
      rw [hd] at hc
      have hdc := Option.some.inj hc
      subst hdc
      exact (h (d :: t) (by simp)).2 d rfl

theorem joinSep_lastOk (sep : List Char) :
    ∀ ws, (∀ w ∈ ws, w ≠ [] ∧ lastOk w) → lastOk (joinSep sep ws) := by
  intro ws
  induction ws with
  | nil =>
    intro _ c hc
    simp [joinSep] at hc
  | cons w ws2 ih =>
    intro h
    cases ws2 with
    | nil => exact (h w (by simp)).2
    | cons w2 ws3 =>
      show lastOk (w ++ sep ++ joinSep sep (w2 :: ws3))
      have hrest : joinSep sep (w2 :: ws3) ≠ [] :=
        joinSep_ne_nil sep (w2 :: ws3) (by simp) (fun v hv => (h v (List.mem_cons_of_mem w hv)).1)
      intro c hc
      rw [List.getLast?_append_of_ne_nil _ hrest] at hc
      exact ih (fun v hv => h v (List.mem_cons_of_mem w hv)) c hc

theorem stripChars_eq_self (l : List Char) (h1 : headOk l) (h2 : lastOk l) :
    stripChars l = l := by
  unfold stripChars
  have hd : l.dropWhile isPySpace = l := by
    cases l with
    | nil => rfl
    | cons c t =>
      rw [List.dropWhile_cons, if_neg]
      simp [h1 c rfl]
  rw [hd]
  have hr : l.reverse.dropWhile isPySpace = l.reverse := by
    rcases hrev : l.reverse with _ | ⟨c, t⟩
    · rfl
    · rw [List.dropWhile_cons, if_neg]
      have hlast : l.getLast? = some c := by
        rw [← List.head?_reverse, hrev]
        rfl
      simp [h2 c hlast]
  rw [hr, List.reverse_reverse]

theorem clean_ok (s : String) : headOk (_clean_text s).data ∧ lastOk (_clean_text s).data := by
  unfold _clean_text
  have hws : ∀ w ∈ runs (fun c => !isPySpace c) s.data, w ≠ [] ∧ headOk w ∧ lastOk w := by
    intro w hw
    obtain ⟨hne, hall⟩ := runs_sound _ s.data w hw
    refine ⟨hne, fun c hc => ?_, fun c hc => ?_⟩
    · have := hall c (List.mem_of_mem_head? hc)
      simpa using this
    · have := hall c (List.mem_of_mem_getLast? hc)
      simpa using this
  exact ⟨joinSep_headOk [' '] _ (fun w hw => ⟨(hws w hw).1, (hws w hw).2.1⟩),
    joinSep_lastOk [' '] _ (fun w hw => ⟨(hws w hw).1, (hws w hw).2.2⟩)⟩

theorem pyStrip_clean (s : String) : pyStrip (_clean_text s) = _clean_text s := by
  unfold pyStrip
  rw [stripChars_eq_self _ (clean_ok s).1 (clean_ok s).2]

theorem dedupe140Aux_subset :
    ∀ (l : List String) (seen : List String), ∀ x ∈ dedupe140Aux seen l, x ∈ l := by
  intro l
  induction l with
  | nil => simp [dedupe140Aux]
  | cons t rest ih =>
    intro seen x hx
    rw [dedupe140Aux] at hx
    by_cases h : seen.contains (strTake 140 t) = true
    · rw [if_pos h] at hx
      exact List.mem_cons_of_mem t (ih seen x hx)
    · rw [if_neg h] at hx
      rcases List.mem_cons.mp hx with rfl | hx2
      · exact List.mem_cons_self _ _
      · exact List.mem_cons_of_mem t (ih _ x hx2)

theorem mem_readableParas (containers : List (List String)) (x : String) :
    x ∈ readableParas containers ↔
      ∃ c ∈ containers.take 3, ∃ p ∈ c, x = _clean_text p ∧ 40 ≤ x.length := by
  unfold readableParas
  constructor
  · intro hx
    obtain ⟨piece, hpiece, hxin⟩ := List.mem_flatten.mp hx
    obtain ⟨c, hc, rfl⟩ := List.mem_map.mp hpiece
    obtain ⟨hxmem, hxlen⟩ := List.mem_filter.mp hxin
    obtain ⟨p, hp, rfl⟩ := List.mem_map.mp hxmem
    exact ⟨c, hc, p, hp, rfl, by simpa using hxlen⟩
  · rintro ⟨c, hc, p, hp, rfl, hlen⟩
    exact List.mem_flatten.mpr ⟨_, List.mem_map.mpr ⟨c, hc, rfl⟩,
      List.mem_filter.mpr ⟨List.mem_map.mpr ⟨p, hp, rfl⟩, by simpa using hlen⟩⟩

theorem readablePara_ok (containers : List (List String)) :
    ∀ x ∈ readableParas containers, x.data ≠ [] ∧ headOk x.data ∧ lastOk x.data := by
  intro x hx
  obtain ⟨c, _, p, _, rfl, hlen⟩ := (mem_readableParas containers x).mp hx
  refine ⟨?_, (clean_ok p).1, (clean_ok p).2⟩
  intro hnil
  have : (_clean_text p).length = 0 := by
    show (_clean_text p).data.length = 0
    rw [hnil]
    rfl
  omega

/-- C8 amended: fetch_readable_text applies no minimum-total-length gate and
has no error_kind channel — the text is empty exactly when no single cleaned
paragraph reaches the per-paragraph threshold of 40 characters, so any page
with one sufficient paragraph yields its text however short the total is,
and a too-short total is never turned into an error. -/
theorem readable_no_total_length_gate (containers : List (List String)) :
    fetch_readable_text_core containers = "" ↔
      ∀ c ∈ containers.take 3, ∀ p ∈ c, (_clean_text p).length < 40 := by
  constructor
  · intro hout
    by_contra hcon
    push_neg at hcon
    obtain ⟨c, hc, p, hp, hlen⟩ := hcon
    have hmem : _clean_text p ∈ readableParas containers :=
      (mem_readableParas containers _).mpr ⟨c, hc, p, hp, rfl, hlen⟩
    have hne : readableParas containers ≠ [] := by
      intro h
      rw [h] at hmem
      exact absurd hmem (List.not_mem_nil _)
    have hded_ne : dedupe140 (readableParas containers) ≠ [] := by
      obtain ⟨q, rest, hqr⟩ := List.exists_cons_of_ne_nil hne
      rw [hqr]
      unfold dedupe140 dedupe140Aux
      simp
    have hpieces : ∀ w ∈ (dedupe140 (readableParas containers)).map (fun s => s.data),
        w ≠ [] ∧ headOk w ∧ lastOk w := by
      intro w hw
      obtain ⟨x, hx, rfl⟩ := List.mem_map.mp hw
      exact readablePara_ok containers x (dedupe140Aux_subset _ [] x hx)
    have hjoin_ne : joinSep ['\n', '\n']
        ((dedupe140 (readableParas containers)).map (fun s => s.data)) ≠ [] := by
      refine joinSep_ne_nil _ _ ?_ (fun w hw => (hpieces w hw).1)
      simpa using hded_ne
    apply hjoin_ne
    have hdata : stripChars (joinSep ['\n', '\n']
        ((dedupe140 (readableParas containers)).map (fun s => s.data))) = [] := by
      have h0 : (fetch_readable_text_core containers).data = [] := by
        rw [hout]
      exact h0
    rw [stripChars_eq_self _
      (joinSep_headOk _ _ (fun w hw => ⟨(hpieces w hw).1, (hpieces w hw).2.1⟩))
      (joinSep_lastOk _ _ (fun w hw => ⟨(hpieces w hw).1, (hpieces w hw).2.2⟩))] at hdata
    exact hdata
  · intro hshort
    have hparas : readableParas containers = [] := by
      unfold readableParas
      rw [List.flatten_eq_nil_iff]
      intro piece hpiece
      obtain ⟨c, hc, rfl⟩ := List.mem_map.mp hpiece
      rw [List.filter_eq_nil_iff]
      intro a ha
      obtain ⟨p, hp, rfl⟩ := List.mem_map.mp ha
      have := hshort c hc p hp
      simp
      omega
    unfold fetch_readable_text_core
    rw [hparas]
    rfl

theorem readable_no_total_length_gate_witness :
    fetch_readable_text_core [[shortParagraph]] ≠ "" := by
  rw [Ne, readable_no_total_length_gate [[shortParagraph]]]
  decide

/-- C8 counterexample: a page whose extractable text is one paragraph of
about sixty characters — far below a several-hundred-character total — is
returned as text, not replaced by an insufficient-text error; in fact the
code has no ok or error_kind field at all, returning a bare pair of strings. -/
theorem readable_short_text_returned_cex :
    fetch_readable_text_core [[shortParagraph]] = shortParagraph
    ∧ shortParagraph.length < 300 := by
  constructor <;> decide

/-- C4 amended: fetch_readable_text performs no gate detection: a
JavaScript-required or consent notice that appears as a paragraph of at
least forty cleaned characters is itself returned as extracted text, and
the result carries no ok flag or error_kind — failures are signalled only by
a pair of empty strings. -/
theorem readable_returns_gate_text (g : String) (hlen : 40 ≤ (_clean_text g).length) :
    fetch_readable_text_core [[g]] = _clean_text g ∧ _clean_text g ≠ "" := by
  have hparas : readableParas [[g]] = [_clean_text g] := by
    unfold readableParas
    simp [hlen]
  constructor
  · unfold fetch_readable_text_core
    rw [hparas]
    show pyStrip ⟨(_clean_text g).data⟩ = _clean_text g
    exact pyStrip_clean g
  · intro he
    rw [he] at hlen
    simp at hlen

theorem readable_returns_gate_text_witness :
    fetch_readable_text_core [[gateNotice]] = _clean_text gateNotice
    ∧ _clean_text gateNotice ≠ "" :=
  readable_returns_gate_text gateNotice (by decide)

/-- C4 counterexample: a gate page whose only paragraph is a
JavaScript-required notice yields that notice as non-empty extracted text;
nothing in the code returns a blocked-by-gate error or suppresses the gate
boilerplate. -/
theorem readable_gate_text_cex :
    fetch_readable_text_core [[gateNotice]] ≠ ""
    ∧ strContains (fetch_readable_text_core [[gateNotice]]) "JavaScript" = true := by
  constructor <;> decide

/-- C6: when the network fetch raises, _fetch_feed returns the cached parse
result whenever one exists for the URL — fresh or expired alike, since a
fresh hit returns early and an expired one falls back to the stale value —
and returns the empty parse result exactly when no cached value exists. The
cache cell is left untouched in both cases. -/
theorem fetch_feed_error_fallback {β δ : Type} (parse : β → δ) (emptyB : β)
    (ttl now t : Int) (d : δ) :
    fetch_feed parse emptyB ttl now (some (t, d)) Net.exc = (d, some (t, d))
    ∧ fetch_feed parse emptyB ttl now none Net.exc = (parse emptyB, none) := by
  constructor
  · unfold fetch_feed
    by_cases h : now - t < ttl <;> simp [h]
  · rfl

theorem fetch_feed_error_fallback_witness :
    fetch_feed Nat.succ 0 180 1000 (some (0, 7)) Net.exc = (7, some (0, 7))
    ∧ fetch_feed Nat.succ 0 180 1000 none Net.exc = (1, none) :=
  ⟨(fetch_feed_error_fallback Nat.succ 0 180 1000 0 7).1,
    (fetch_feed_error_fallback Nat.succ 0 180 1000 0 7).2⟩

/-- C10: with an expired cache entry, a completed HTTP response whose ok
flag is false makes _fetch_feed parse the empty byte string, overwrite the
cache entry for the URL with that empty parse result, and return it; the
previously cached value does not appear in the result. -/
theorem fetch_feed_not_ok_overwrites {β δ : Type} (parse : β → δ) (emptyB : β)
    (ttl now t : Int) (d : δ) (content : β) (h : ¬ now - t < ttl) :
    fetch_feed parse emptyB ttl now (some (t, d)) (Net.resp false content)
      = (parse emptyB, some (now, parse emptyB)) := by
  unfold fetch_feed
  simp [h]

theorem fetch_feed_not_ok_overwrites_witness :
    fetch_feed Nat.succ 0 180 1000 (some (0, 7)) (Net.resp false 5) = (1, some (1000, 1)) :=
  fetch_feed_not_ok_overwrites Nat.succ 0 180 1000 0 7 5 (by decide)

/-- C9: item_id depends on its two fields only through their concatenation —
equal concatenations give equal identifiers even for different (link, title)
pairs — and the identifier is sixteen lowercase hexadecimal characters. -/
theorem item_id_concat_function (l1 t1 l2 t2 : String) (h : l1 ++ t1 = l2 ++ t2) :
    item_id l1 t1 = item_id l2 t2
    ∧ (item_id l1 t1).length = 16
    ∧ ∀ c ∈ (item_id l1 t1).data, c ∈ hexChars := by
  refine ⟨by rw [item_id, item_id, h], ?_, ?_⟩
  · show (String.mk ((sha1HexChars (strBytes (l1 ++ t1))).take 16)).length = 16
    show ((sha1HexChars (strBytes (l1 ++ t1))).take 16).length = 16
    rw [List.length_take, sha1HexChars_length]
    decide
  · intro c hc
    have hc2 : c ∈ sha1HexChars (strBytes (l1 ++ t1)) :=
      List.take_subset 16 _ hc
    exact sha1HexChars_mem _ c hc2

theorem item_id_concat_function_witness :
    ("ab", "c") ≠ ("a", "bc") ∧ item_id "ab" "c" = item_id "a" "bc" :=
  ⟨by decide, (item_id_concat_function "ab" "c" "a" "bc" (by decide)).1⟩

/-- C7 amended: collect_items accepts a window_hours argument only through
its ignored keyword catch-all, so the output is independent of it and no
item is discarded by recency — every merged item reaches the sorted output
for every window value. The helper within_hours does embody the discard
predicate the claim describes (false for a missing timestamp, otherwise
newer-than-window), but collect_items never calls it; its callers apply it
themselves after collecting. -/
theorem collect_window_hours_ignored (feeds : List (String × List RawEntry))
    (q : Option String) (m : Nat) :
    (∀ w w' : Option Nat, collect_items feeds q m w = collect_items feeds q m w')
    ∧ (∀ w : Option Nat, ∀ x ∈ collectUnsorted feeds q m, x ∈ collect_items feeds q m w)
    ∧ (∀ hours now : Int, within_hours none hours now = false)
    ∧ (∀ d hours now : Int, within_hours (some d) hours now = decide (now - hours * 3600 ≤ d)) := by
  refine ⟨fun w w' => rfl, fun w x hx => ?_, fun hours now => rfl, fun d hours now => rfl⟩
  exact (mem_sortDesc itemKey x _).mpr hx

theorem collect_window_hours_ignored_witness :
    collect_items [("W", [windowEntry])] none 25 (some 4)
      = collect_items [("W", [windowEntry])] none 25 none
    ∧ within_hours none 4 0 = false :=
  ⟨(collect_window_hours_ignored [("W", [windowEntry])] none 25).1 (some 4) none,
    (collect_window_hours_ignored [("W", [windowEntry])] none 25).2.2.1 4 0⟩

/-- C7 counterexample: with a recency window of four hours present, an item
with no published_at at all is kept in the result, not discarded. -/
theorem collect_window_hours_ignored_cex :
    collect_items [("W", [windowEntry])] none 25 (some 4) = [windowItem]
    ∧ windowItem.dt = none := by
  constructor <;> decide

end KBM
